import Mathlib

/-!
# fm_transmitter_1.cpp and cpu_transmitter.c

A shallow embedding of the two programs of the repository.

* `FmTransmitter` embeds `Research/pi_GPIO_pin_fm_transmitter/fm_transmitter_1.cpp`:
  the signal handler `sigIntHandler`, the option loop of `main`, the playlist
  loop of `main` and its `try`/`catch`.  What the program cannot decide by
  itself is an input of the model: the options `getopt` returns, the value of
  `optind` once `getopt` is done, the signals that are delivered, and whether
  the constructors of `Transmitter` and `WaveReader` and the call of
  `Transmit` throw.  The classes `Transmitter` and `WaveReader` come from
  `transmitter.hpp`, which is not among the sources; they are taken to throw
  exceptions derived from `std::exception` only, and to leave `enable`,
  `transmitter` and `optind` as they are.
* `CpuTransmitter` embeds `working_pair/cpu_transmitter.c`.

The playlist loop need not end, so it is run with fuel: `playlistLoop` and
`main` perform at most `fuel` iterations and report `running` when iterations
remain.  A property of every iteration is a property for every `fuel`.

`float` values are embedded as rationals: the program only stores, prints and
passes them on.
-/

namespace FmTransmitter

/-! ## Data -/

/-- Value of the C macro `EXIT_SUCCESS`. -/
def EXIT_SUCCESS : Int := 0

/-- Value of the C macro `EXIT_FAILURE`. -/
def EXIT_FAILURE : Int := 1

/-- Modelled from the spec: the class `Transmitter` is declared in
`transmitter.hpp`, which is not among the sources.  The program only holds a
pointer to one object, so the object carries no data here; the calls of
`Stop()` and `Transmit(...)` are recorded in the state. -/
inductive Transmitter where
  | mk
deriving DecidableEq, Repr

/-- The fields of `WaveHeader` that `main` prints.  The type is declared in
`transmitter.hpp`, which is not among the sources; the values come from the
environment of the iteration. -/
structure WaveHeader where
  sampleRate : Nat
  bitsPerSample : Nat
  channels : Nat
deriving DecidableEq, Repr

/-- One result of `getopt(argc, argv, "rf:d:b:v")` other than `-1`.  For the
options with an argument the value is what `std::stof(optarg)` or
`std::stoi(optarg)` returns, `none` when that call throws.  `other` is a
character the `switch` has no case for (`?`). -/
inductive Opt where
  | r
  | f (value : Option ℚ)
  | d (value : Option Int)
  | b (value : Option ℚ)
  | v
  | other
deriving DecidableEq

/-- The local variables `frequency`, `bandwidth`, `dmaChannel`, `loop` of `main`. -/
structure Options where
  frequency : ℚ
  bandwidth : ℚ
  dmaChannel : Nat
  loop : Bool
deriving DecidableEq

/-- The initial values: `frequency = 100.f, bandwidth = 200.f`,
`dmaChannel = 0`, `loop = false`. -/
def Options.initial : Options :=
  { frequency := 100, bandwidth := 200, dmaChannel := 0, loop := false }

/-- A line written to `std::cout`. -/
inductive Line where
  | signalReceived (sigNum : Int)
  | frequencySet (frequency : ℚ)
  | dmaChannelSet (dmaChannel : Nat)
  | bandwidthSet (bandwidth : ℚ)
  | version
  | usage
  | broadcasting (frequency bandwidth : ℚ)
  | loading (filename : String)
  | playing (filename : String) (sampleRate bitsPerSample : Nat) (stereo : Bool)
  | error (what : String)
deriving DecidableEq

/-- One call `transmitter->Transmit(reader, frequency, bandwidth, dmaChannel, hasMore)`:
a session.  `filename` is the entry of `argv` the iteration read and `source`
the path its `WaveReader` was constructed with. -/
structure TransmitCall where
  filename : String
  source : String
  frequency : ℚ
  bandwidth : ℚ
  dmaChannel : Nat
  hasMore : Bool
deriving DecidableEq

/-- What happens around one iteration of the playlist loop.
* `sigBefore`: the signals delivered in the iteration before `Transmit` is
  entered (from the test of the previous `while` condition on);
* `openResult`: the `WaveReader` constructor throws `what`, or the reader
  reports its file name and header;
* `sigDuring`: the signals delivered while `Transmit` runs;
* `transmitResult`: `Transmit` throws `what`, or returns. -/
structure SessionEnv where
  sigBefore : List Int
  openResult : Except String (String × WaveHeader)
  sigDuring : List Int
  transmitResult : Option String

/-- The globals `enable` and `transmitter`, the variable `optind`, and a
record of what the program did: the lines printed, the calls of `Transmit`,
the indices at which `argv` was read and the number of calls of `Stop()`. -/
structure State where
  enable : Bool
  transmitter : Option Transmitter
  optind : Nat
  out : List Line
  calls : List TransmitCall
  reads : List Nat
  stops : Nat

/-! ## The signal handler -/

/-- The function `sigIntHandler`. -/
def sigIntHandler (sigNum : Int) (s : State) : State :=
  match s.transmitter with
  | some _ =>
      { s with
        out := s.out ++ [Line.signalReceived sigNum]
        stops := s.stops + 1
        enable := false }
  | none => s

/-- Delivery of a sequence of signals, each one running the handler. -/
def deliver (sigs : List Int) (s : State) : State :=
  sigs.foldl (fun st sigNum => sigIntHandler sigNum st) s

/-! ## Option parsing -/

/-- How the option loop of `main` ends. -/
inductive Parsed where
  | proceed (o : Options) (out : List Line)
  | version (out : List Line)
  | uncaught (out : List Line)

/-- The `while ((opt = getopt(...)) != -1)` loop of `main` over the options
`getopt` returns.  `-v` returns from `main`; a throwing `stof`/`stoi` is
outside the `try` block and is not caught. -/
def parseOptions : List Opt → Options → List Line → Parsed
  | [], o, out => .proceed o out
  | .r :: rest, o, out => parseOptions rest { o with loop := true } out
  | .f (some x) :: rest, o, out =>
      parseOptions rest { o with frequency := x } (out ++ [Line.frequencySet x])
  | .f none :: _, _, out => .uncaught out
  | .d (some x) :: rest, o, out =>
      let dmaChannel := (x % 65536).toNat
      parseOptions rest { o with dmaChannel := dmaChannel } (out ++ [Line.dmaChannelSet dmaChannel])
  | .d none :: _, _, out => .uncaught out
  | .b (some x) :: rest, o, out =>
      parseOptions rest { o with bandwidth := x } (out ++ [Line.bandwidthSet x])
  | .b none :: _, _, out => .uncaught out
  | .v :: _, _, out => .version (out ++ [Line.version])
  | .other :: rest, o, out => parseOptions rest o out

/-! ## The playlist loop -/

/-- How one execution of the body of the `do ... while` loop ends: normally,
by an exception, or by reading `argv` past its end. -/
inductive BodyResult where
  | normal (s : State)
  | threw (s : State) (what : String)
  | fault (s : State)

/-- The body of the `do ... while` loop (lines 72 to 84). -/
def loopBody (argv : List String) (filesOffset : Nat) (o : Options)
    (e : SessionEnv) (s : State) : BodyResult :=
  match argv[s.optind]? with
  | none => .fault s
  | some filename =>
    let optind1 := s.optind + 1
    let optind2 := if optind1 = argv.length ∧ o.loop = true then filesOffset else optind1
    let s1 : State :=
      { s with
        optind := optind2
        reads := s.reads ++ [s.optind]
        out := s.out ++ [Line.loading filename] }
    let s2 := deliver e.sigBefore s1
    match e.openResult with
    | .error what => .threw s2 what
    | .ok (name, header) =>
      let s3 : State :=
        { s2 with
          out := s2.out ++
            [Line.playing name header.sampleRate header.bitsPerSample (decide (header.channels > 1))]
          calls := s2.calls ++
            [{ filename := filename
               source := if filename ≠ "-" then filename else ""
               frequency := o.frequency
               bandwidth := o.bandwidth
               dmaChannel := o.dmaChannel
               hasMore := decide (optind2 < argv.length) }] }
      let s4 := deliver e.sigDuring s3
      match e.transmitResult with
      | some what => .threw s4 what
      | none => .normal s4

/-- How the loop stands after a number of iterations. -/
inductive LoopStatus where
  | running
  | finished
  | threw (what : String)
  | fault
deriving DecidableEq

/-- The `do ... while (enable && (optind < argc))` loop, run for at most
`fuel` iterations; `k` numbers the iteration that comes next.  The state
returned is the one reached, `running` when iterations remain. -/
def playlistLoop (argv : List String) (filesOffset : Nat) (o : Options)
    (env : Nat → SessionEnv) : Nat → Nat → State → State × LoopStatus
  | 0, _, s => (s, .running)
  | fuel + 1, k, s =>
    match loopBody argv filesOffset o (env k) s with
    | .fault s1 => (s1, .fault)
    | .threw s1 what => (s1, .threw what)
    | .normal s1 =>
      if s1.enable = true ∧ s1.optind < argv.length then
        playlistLoop argv filesOffset o env fuel (k + 1) s1
      else (s1, .finished)

/-! ## main -/

/-- The inputs of one run of `main`.
* `argv`: the argument vector (`argc` is its length);
* `opts`: what the calls of `getopt` return, in order;
* `optind`: the value of `optind` when `getopt` has returned `-1`;
* `sigEarly`: the signals delivered after the handlers are installed and
  before the `Transmitter` is created;
* `createResult`: `new Transmitter()` throws `what`, or succeeds;
* `sessions`: the environment of each iteration of the playlist loop. -/
structure Input where
  argv : List String
  opts : List Opt
  optind : Nat
  sigEarly : List Int
  createResult : Option String
  sessions : Nat → SessionEnv

/-- How a run of `main` stands: returned with a status, still in the playlist
loop, ended by an exception nothing catches, or by a read past `argv`. -/
inductive Outcome where
  | exited (code : Int)
  | running
  | uncaught
  | fault
deriving DecidableEq

/-- The state `main` starts from. -/
def State.initial (optind : Nat) (out : List Line) : State :=
  { enable := true, transmitter := none, optind := optind, out := out,
    calls := [], reads := [], stops := 0 }

/-- Lines 86 to 96: the `catch` block when `caught` holds an exception, then
the deletion of the transmitter and the `return`. -/
def finish (s : State) (caught : Option String) : State × Outcome :=
  match caught with
  | some what =>
      ({ s with out := s.out ++ [Line.error what], transmitter := none },
        .exited EXIT_FAILURE)
  | none => ({ s with transmitter := none }, .exited EXIT_SUCCESS)

/-- Lines 51 to 96 of `main`, with the options parsed into `o`. -/
def mainBody (fuel : Nat) (inp : Input) (o : Options) (out : List Line) :
    State × Outcome :=
  if inp.optind < inp.argv.length then
    let filesOffset := inp.optind
    let s1 := deliver inp.sigEarly (State.initial inp.optind out)
    match inp.createResult with
    | some what => finish s1 (some what)
    | none =>
      let s2 : State :=
        { s1 with
          transmitter := some Transmitter.mk
          out := s1.out ++ [Line.broadcasting o.frequency o.bandwidth] }
      match playlistLoop inp.argv filesOffset o inp.sessions fuel 0 s2 with
      | (s3, .running) => (s3, .running)
      | (s3, .fault) => (s3, .fault)
      | (s3, .threw what) => finish s3 (some what)
      | (s3, .finished) => finish s3 none
  else
    (State.initial inp.optind (out ++ [Line.usage]), .exited 0)

/-- The function `main`; `fuel` bounds the number of iterations of the
playlist loop that are run. -/
def main (fuel : Nat) (inp : Input) : State × Outcome :=
  match parseOptions inp.opts Options.initial [] with
  | .version out => (State.initial inp.optind out, .exited 0)
  | .uncaught out => (State.initial inp.optind out, .uncaught)
  | .proceed o out => mainBody fuel inp o out

/-! ## Notions used to state the properties -/

/-- The value `optind` has after the iteration that read `argv[i]`
(lines 72 to 75), with `argc` the length of `argv`. -/
def advance (argc filesOffset : Nat) (loop : Bool) (i : Nat) : Nat :=
  if i + 1 = argc ∧ loop = true then filesOffset else i + 1

/-- The indices of `argv` read by `j` successive iterations, the first one
reading `argv[i]`. -/
def indices (argc filesOffset : Nat) (loop : Bool) : Nat → Nat → List Nat
  | 0, _ => []
  | j + 1, i => i :: indices argc filesOffset loop j (advance argc filesOffset loop i)

/-- The call of `Transmit` made by the iteration that reads `argv[i]`. -/
def callAt (argv : List String) (filesOffset : Nat) (o : Options) (i : Nat) : TransmitCall :=
  { filename := argv.getD i ""
    source := if argv.getD i "" ≠ "-" then argv.getD i "" else ""
    frequency := o.frequency
    bandwidth := o.bandwidth
    dmaChannel := o.dmaChannel
    hasMore := decide (advance argv.length filesOffset o.loop i < argv.length) }

/-- The exception an iteration with environment `e` throws, if any. -/
def throws (e : SessionEnv) : Option String :=
  match e.openResult with
  | .error what => some what
  | .ok _ => e.transmitResult

/-- The signals delivered in an iteration with environment `e`: those before
`Transmit`, and those during `Transmit` when it is called at all. -/
def delivered (e : SessionEnv) : List Int :=
  match e.openResult with
  | .error _ => e.sigBefore
  | .ok _ => e.sigBefore ++ e.sigDuring

/-- No signal arrives in the iteration and nothing throws. -/
def Quiet (e : SessionEnv) : Prop :=
  delivered e = [] ∧ throws e = none

/-- The number of iterations the loop runs within `fuel` when nothing stops
it, the first one reading `argv[i]`. -/
def iterations (argc : Nat) (loop : Bool) (fuel i : Nat) : Nat :=
  if loop = true then fuel else min fuel (argc - i)

/-- The state a body result carries. -/
def BodyResult.state : BodyResult → State
  | .normal s => s
  | .threw s _ => s
  | .fault s => s

/-- What holds whenever the loop body is entered as iteration `k`: `k`
iterations have read `argv`, the transmitter exists, and `optind` points at a
file argument. -/
def LoopInv (argv : List String) (filesOffset k : Nat) (s : State) : Prop :=
  s.reads.length = k ∧ s.transmitter.isSome = true ∧
    filesOffset ≤ s.optind ∧ s.optind < argv.length

/-- The state in which `main` enters the playlist loop: the transmitter is
created and the `Broadcasting` line printed. -/
def loopEntry (inp : Input) (o : Options) (out : List Line) : State :=
  { State.initial inp.optind out with
    transmitter := some Transmitter.mk
    out := out ++ [Line.broadcasting o.frequency o.bandwidth] }

/-- How `main` stands for each way the loop stands. -/
def outcomeOf : LoopStatus → Outcome
  | .running => .running
  | .fault => .fault
  | .threw _ => .exited EXIT_FAILURE
  | .finished => .exited EXIT_SUCCESS

/-! ## Concrete runs -/

/-- An iteration in which the file opens, no signal arrives and `Transmit`
returns. -/
def quietSession : SessionEnv :=
  { sigBefore := []
    openResult := .ok ("a.wav", { sampleRate := 44100, bitsPerSample := 16, channels := 1 })
    sigDuring := []
    transmitResult := none }

/-- The run of `fm_transmitter a.wav b.wav` in which nothing goes wrong. -/
def exampleOnce : Input :=
  { argv := ["fm_transmitter", "a.wav", "b.wav"], opts := [], optind := 1,
    sigEarly := [], createResult := none, sessions := fun _ => quietSession }

/-- The run of `fm_transmitter -r a.wav b.wav` in which nothing goes wrong. -/
def exampleRepeat : Input :=
  { argv := ["fm_transmitter", "-r", "a.wav", "b.wav"], opts := [Opt.r], optind := 2,
    sigEarly := [], createResult := none, sessions := fun _ => quietSession }

/-- The run of `fm_transmitter -f 90 a.wav` in which nothing goes wrong. -/
def exampleFrequency : Input :=
  { argv := ["fm_transmitter", "-f", "90", "a.wav"], opts := [Opt.f (some 90)], optind := 3,
    sigEarly := [], createResult := none, sessions := fun _ => quietSession }

/-- The run of `fm_transmitter a.wav b.wav` in which `a.wav` has a malformed
header, so that the `WaveReader` constructor throws. -/
def exampleBroken : Input :=
  { exampleOnce with
    sessions := fun k =>
      if k = 0 then { quietSession with openResult := .error "bad header" }
      else quietSession }

/-- The run of `fm_transmitter a.wav b.wav` in which SIGINT (2) is delivered
after the handlers are installed and before the `Transmitter` is created. -/
def exampleEarlySignal : Input :=
  { exampleOnce with sigEarly := [2] }

/-- The run of `fm_transmitter -r a.wav b.wav` in which SIGINT (2) is
delivered during the second session. -/
def exampleSignal : Input :=
  { exampleRepeat with
    sessions := fun k =>
      if k = 1 then { quietSession with sigDuring := [2] } else quietSession }

/-! ## The modulation step -/

/-- Modelled from the spec: the modulation step of `Transmitter::Transmit`,
whose code is not among the sources (only its caller `main` is).  Section 4.2
of the specification, step 1: for each sample compute
`deviation = amplitude_normalized * (bandwidthKHz/2)` and clamp it to the
configured bandwidth, which the glossary defines as the maximum allowed
deviation range around the carrier: the interval from `-bandwidthKHz/2` to
`bandwidthKHz/2`. -/
def deviation (bandwidthKHz amplitude : ℚ) : ℚ :=
  let raw := amplitude * (bandwidthKHz / 2)
  max (-(bandwidthKHz / 2)) (min raw (bandwidthKHz / 2))

end FmTransmitter

namespace CpuTransmitter

/-! ## cpu_transmitter.c -/

/-- The macro `BITSTREAM`. -/
def BITSTREAM : String := "10101"

/-- The macro `DURATION_ONE`, in microseconds. -/
def DURATION_ONE : Nat := 1000000

/-- The macro `DURATION_ZERO`, in microseconds. -/
def DURATION_ZERO : Nat := 1000000

/-- The macro `REPEAT_PAUSE`, in microseconds. -/
def REPEAT_PAUSE : Nat := 1000000

/-- The macro `NUM_THREADS`. -/
def NUM_THREADS : Nat := 8

/-- What the program does, as far as it can be observed: it prints the bit it
sends (after a time stamp read from the clock), keeps a number of threads busy
for a time, or sleeps for a time.  Times are in microseconds. -/
inductive Action where
  | print (bit : Char)
  | load (threads microseconds : Nat)
  | usleep (microseconds : Nat)
deriving DecidableEq, Repr

/-- The function `start_cpu_load`: `NUM_THREADS` threads run `burn_cpu` while
the caller sleeps `microseconds`, then they are stopped and joined. -/
def start_cpu_load (microseconds : Nat) : List Action :=
  [Action.load NUM_THREADS microseconds]

/-- The function `transmit_bit`. -/
def transmit_bit (bit : Char) : List Action :=
  Action.print bit ::
    (if bit = '1' then start_cpu_load DURATION_ONE else [Action.usleep DURATION_ZERO])

/-- One pass of the `while (1)` loop of `main`: every bit of the message, then
the pause. -/
def round (message : String) : List Action :=
  (message.toList.map transmit_bit).flatten ++ [Action.usleep REPEAT_PAUSE]

/-- The function `main`, cut after `rounds` passes of its endless loop. -/
def main : Nat → List Action
  | 0 => []
  | rounds + 1 => round BITSTREAM ++ main rounds

/-- A duration given in seconds, expressed in microseconds. -/
def microseconds (seconds : ℚ) : ℚ := seconds * 1000000

end CpuTransmitter

namespace FmTransmitter

/-! ## The signal handler: lemmas -/

theorem deliver_nil (s : State) : deliver [] s = s := rfl

theorem deliver_cons (n : Int) (sigs : List Int) (s : State) :
    deliver (n :: sigs) s = deliver sigs (sigIntHandler n s) := rfl

theorem deliver_null (sigs : List Int) (s : State) (h : s.transmitter = none) :
    deliver sigs s = s := by
  induction sigs with
  | nil => rfl
  | cons n rest ih => simp [deliver_cons, sigIntHandler, h, ih]

theorem sigIntHandler_frame (n : Int) (s : State) :
    (sigIntHandler n s).transmitter = s.transmitter ∧
    (sigIntHandler n s).optind = s.optind ∧
    (sigIntHandler n s).reads = s.reads ∧
    (sigIntHandler n s).calls = s.calls := by
  unfold sigIntHandler
  split <;> simp_all

theorem deliver_frame (sigs : List Int) (s : State) :
    (deliver sigs s).transmitter = s.transmitter ∧
    (deliver sigs s).optind = s.optind ∧
    (deliver sigs s).reads = s.reads ∧
    (deliver sigs s).calls = s.calls := by
  induction sigs generalizing s with
  | nil => simp [deliver_nil]
  | cons n rest ih =>
    rw [deliver_cons]
    obtain ⟨h1, h2, h3, h4⟩ := ih (sigIntHandler n s)
    obtain ⟨g1, g2, g3, g4⟩ := sigIntHandler_frame n s
    exact ⟨h1.trans g1, h2.trans g2, h3.trans g3, h4.trans g4⟩

theorem deliver_armed (sigs : List Int) (s : State) (t : Transmitter)
    (h : s.transmitter = some t) :
    (deliver sigs s).stops = s.stops + sigs.length ∧
    (deliver sigs s).enable = (s.enable && sigs.isEmpty) ∧
    (deliver sigs s).out = s.out ++ sigs.map Line.signalReceived := by
  induction sigs generalizing s with
  | nil => simp [deliver_nil]
  | cons n rest ih =>
    rw [deliver_cons]
    have ht : (sigIntHandler n s).transmitter = some t := by
      rw [(sigIntHandler_frame n s).1, h]
    obtain ⟨h1, h2, h3⟩ := ih (sigIntHandler n s) ht
    rw [h1, h2, h3]
    simp [sigIntHandler, h]
    omega

/-! ## The loop body: lemmas -/

theorem getD_of_getElem? (argv : List String) (i : Nat) (f : String)
    (h : argv[i]? = some f) : argv.getD i "" = f := by
  simp [List.getD, h]

theorem loopBody_kind (argv : List String) (filesOffset : Nat) (o : Options)
    (e : SessionEnv) (s : State) (hi : s.optind < argv.length) :
    loopBody argv filesOffset o e s =
      (match throws e with
        | some what => BodyResult.threw (loopBody argv filesOffset o e s).state what
        | none => BodyResult.normal (loopBody argv filesOffset o e s).state) := by
  obtain ⟨f, hf⟩ : ∃ f, argv[s.optind]? = some f := ⟨argv[s.optind], by simp [hi]⟩
  unfold loopBody throws
  simp only [hf]
  rcases e.openResult with what | ⟨name, header⟩
  · rfl
  · rcases e.transmitResult with _ | what <;> rfl

theorem loopBody_state (argv : List String) (filesOffset : Nat) (o : Options)
    (e : SessionEnv) (s : State) (hi : s.optind < argv.length) :
    (loopBody argv filesOffset o e s).state.optind
        = advance argv.length filesOffset o.loop s.optind ∧
    (loopBody argv filesOffset o e s).state.reads = s.reads ++ [s.optind] ∧
    (loopBody argv filesOffset o e s).state.transmitter = s.transmitter ∧
    (loopBody argv filesOffset o e s).state.calls = s.calls ++
        (match e.openResult with
          | .ok _ => [callAt argv filesOffset o s.optind]
          | .error _ => []) := by
  obtain ⟨f, hf⟩ : ∃ f, argv[s.optind]? = some f := ⟨argv[s.optind], by simp [hi]⟩
  have hg := getD_of_getElem? argv s.optind f hf
  unfold loopBody
  simp only [hf]
  rcases e.openResult with what | ⟨name, header⟩
  · simp [BodyResult.state, deliver_frame, advance]
  · rcases e.transmitResult with _ | what <;>
      simp [BodyResult.state, deliver_frame, advance, callAt, hf]

theorem deliver_transmitter (sigs : List Int) (s : State) :
    (deliver sigs s).transmitter = s.transmitter := (deliver_frame sigs s).1

theorem deliver_stops (sigs : List Int) (s : State) (h : s.transmitter.isSome = true) :
    (deliver sigs s).stops = s.stops + sigs.length := by
  obtain ⟨t, ht⟩ := Option.isSome_iff_exists.mp h
  exact (deliver_armed sigs s t ht).1

theorem deliver_enable (sigs : List Int) (s : State) (h : s.transmitter.isSome = true) :
    (deliver sigs s).enable = (s.enable && sigs.isEmpty) := by
  obtain ⟨t, ht⟩ := Option.isSome_iff_exists.mp h
  exact (deliver_armed sigs s t ht).2.1

theorem deliver_out (sigs : List Int) (s : State) (h : s.transmitter.isSome = true) :
    (deliver sigs s).out = s.out ++ sigs.map Line.signalReceived := by
  obtain ⟨t, ht⟩ := Option.isSome_iff_exists.mp h
  exact (deliver_armed sigs s t ht).2.2

theorem loopBody_signals (argv : List String) (filesOffset : Nat) (o : Options)
    (e : SessionEnv) (s : State) (hi : s.optind < argv.length)
    (ht : s.transmitter.isSome = true) :
    (loopBody argv filesOffset o e s).state.stops = s.stops + (delivered e).length ∧
    (loopBody argv filesOffset o e s).state.enable = (s.enable && (delivered e).isEmpty) ∧
    ∀ n ∈ delivered e, Line.signalReceived n ∈ (loopBody argv filesOffset o e s).state.out := by
  obtain ⟨f, hf⟩ : ∃ f, argv[s.optind]? = some f := ⟨argv[s.optind], by simp [hi]⟩
  unfold loopBody delivered
  simp only [hf]
  rcases e.openResult with what | ⟨name, header⟩
  · simp [BodyResult.state, deliver_stops, deliver_enable, deliver_out, ht]
    intro n hn
    exact Or.inr hn
  · rcases e.transmitResult with _ | what
    · simp [BodyResult.state, deliver_stops, deliver_enable, deliver_out, deliver_transmitter, ht]
      refine ⟨by omega, ?_, fun n hn => Or.inr hn⟩
      cases e.sigBefore <;> cases e.sigDuring <;> simp
    · simp [BodyResult.state, deliver_stops, deliver_enable, deliver_out, deliver_transmitter, ht]
      refine ⟨by omega, ?_, fun n hn => Or.inr hn⟩
      cases e.sigBefore <;> cases e.sigDuring <;> simp
/-! ## The playlist loop: lemmas -/

theorem playlistLoop_succ (argv : List String) (filesOffset : Nat) (o : Options)
    (env : Nat → SessionEnv) (fuel k : Nat) (s : State) (hi : s.optind < argv.length) :
    playlistLoop argv filesOffset o env (fuel + 1) k s =
      (match throws (env k) with
        | some what => ((loopBody argv filesOffset o (env k) s).state, LoopStatus.threw what)
        | none =>
          if (loopBody argv filesOffset o (env k) s).state.enable = true ∧
              (loopBody argv filesOffset o (env k) s).state.optind < argv.length then
            playlistLoop argv filesOffset o env fuel (k + 1)
              (loopBody argv filesOffset o (env k) s).state
          else ((loopBody argv filesOffset o (env k) s).state, LoopStatus.finished)) := by
  have hk := loopBody_kind argv filesOffset o (env k) s hi
  rw [playlistLoop]
  generalize loopBody argv filesOffset o (env k) s = r at hk ⊢
  rcases r with st | ⟨st, w⟩ | st <;> rcases hthrow : throws (env k) with _ | what <;>
    simp [hthrow, BodyResult.state] at hk ⊢
  exact hk

theorem playlistLoop_add (argv : List String) (filesOffset : Nat) (o : Options)
    (env : Nat → SessionEnv) (b : Nat) :
    ∀ (a k : Nat) (s s1 : State),
      playlistLoop argv filesOffset o env a k s = (s1, LoopStatus.running) →
      playlistLoop argv filesOffset o env (a + b) k s
        = playlistLoop argv filesOffset o env b (k + a) s1 := by
  intro a
  induction a with
  | zero =>
    intro k s s1 h
    simp only [playlistLoop, Prod.mk.injEq, and_true] at h
    simp [h]
  | succ a ih =>
    intro k s s1 h
    have e : a + 1 + b = (a + b) + 1 := by omega
    rw [e]
    rw [playlistLoop] at h ⊢
    rcases hb : loopBody argv filesOffset o (env k) s with st | ⟨st, what⟩ | st
    · rw [hb] at h
      simp only at h ⊢
      by_cases hc : st.enable = true ∧ st.optind < argv.length
      · rw [if_pos hc] at h ⊢
        rw [ih (k + 1) st s1 h]
        congr 1
        omega
      · rw [if_neg hc] at h
        simp at h
    · rw [hb] at h
      simp at h
    · rw [hb] at h
      simp at h

theorem advance_lt (argc filesOffset : Nat) (loop : Bool) (i : Nat)
    (hoff : filesOffset < argc) (hi : i < argc) (h : loop = true ∨ i + 1 < argc) :
    advance argc filesOffset loop i < argc := by
  unfold advance
  cases loop <;> simp at h ⊢
  · omega
  · split <;> omega

theorem advance_ge (argc filesOffset : Nat) (loop : Bool) (i : Nat)
    (hi : filesOffset ≤ i) : filesOffset ≤ advance argc filesOffset loop i := by
  unfold advance
  split <;> omega

theorem iterations_succ (argc filesOffset : Nat) (loop : Bool) (fuel i : Nat)
    (h : loop = true ∨ i + 1 < argc) :
    iterations argc loop (fuel + 1) i
      = iterations argc loop fuel (advance argc filesOffset loop i) + 1 := by
  unfold iterations advance
  cases loop <;> simp at h ⊢
  omega

theorem iterations_last (argc : Nat) (loop : Bool) (fuel i : Nat)
    (hi : i < argc) (h : ¬ (loop = true ∨ i + 1 < argc)) :
    iterations argc loop (fuel + 1) i = 1 := by
  unfold iterations
  cases loop <;> simp at h ⊢
  omega

theorem playlistLoop_quiet (argv : List String) (filesOffset : Nat) (o : Options)
    (env : Nat → SessionEnv) (hoff : filesOffset < argv.length) :
    ∀ (fuel k : Nat) (s : State),
      s.enable = true → s.transmitter.isSome = true →
      filesOffset ≤ s.optind → s.optind < argv.length →
      (∀ i, i < iterations argv.length o.loop fuel s.optind → Quiet (env (k + i))) →
      (playlistLoop argv filesOffset o env fuel k s).1.reads = s.reads ++
          indices argv.length filesOffset o.loop
            (iterations argv.length o.loop fuel s.optind) s.optind ∧
      (playlistLoop argv filesOffset o env fuel k s).1.calls = s.calls ++
          (indices argv.length filesOffset o.loop
            (iterations argv.length o.loop fuel s.optind) s.optind).map
              (callAt argv filesOffset o) ∧
      (playlistLoop argv filesOffset o env fuel k s).1.stops = s.stops ∧
      (playlistLoop argv filesOffset o env fuel k s).1.enable = true ∧
      (playlistLoop argv filesOffset o env fuel k s).1.transmitter = s.transmitter ∧
      (playlistLoop argv filesOffset o env fuel k s).2 =
        (if o.loop = true ∨ fuel < argv.length - s.optind
          then LoopStatus.running else LoopStatus.finished) := by
  intro fuel
  induction fuel with
  | zero =>
    intro k s he ht hlo hhi hq
    have : iterations argv.length o.loop 0 s.optind = 0 := by
      unfold iterations; split <;> simp
    rw [this]
    simp [playlistLoop, indices, he, hhi]
  | succ fuel ih =>
    intro k s he ht hlo hhi hq
    have hq0 : Quiet (env k) := by
      have := hq 0 (by unfold iterations; split <;> omega)
      simpa using this
    obtain ⟨hd, hth⟩ := hq0
    obtain ⟨b1, b2, b3, b4⟩ := loopBody_state argv filesOffset o (env k) s hhi
    obtain ⟨c1, c2, -⟩ := loopBody_signals argv filesOffset o (env k) s hhi ht
    rw [hd] at c1 c2
    have hcall : (match (env k).openResult with
          | .ok _ => [callAt argv filesOffset o s.optind]
          | .error _ => []) = [callAt argv filesOffset o s.optind] := by
      unfold throws at hth
      split at hth <;> simp_all
    rw [hcall] at b4
    rw [playlistLoop_succ argv filesOffset o env fuel k s hhi, hth]
    simp only
    generalize (loopBody argv filesOffset o (env k) s).state = st at b1 b2 b3 b4 c1 c2 ⊢
    simp only [List.length_nil, Nat.add_zero, List.isEmpty_nil, Bool.and_true] at c1 c2
    by_cases hc : o.loop = true ∨ s.optind + 1 < argv.length
    · have hlt := advance_lt argv.length filesOffset o.loop s.optind hoff hhi hc
      have hge := advance_ge argv.length filesOffset o.loop s.optind hlo
      have hit := iterations_succ argv.length filesOffset o.loop fuel s.optind hc
      rw [← b1] at hlt hge hit
      rw [if_pos ⟨c2.trans he, hlt⟩]
      have hq1 : ∀ i, i < iterations argv.length o.loop fuel st.optind →
          Quiet (env (k + 1 + i)) := by
        intro i hi
        have := hq (i + 1) (by omega)
        have e : k + 1 + i = k + (i + 1) := by omega
        rw [e]
        exact this
      obtain ⟨r1, r2, r3, r4, r5, r6⟩ :=
        ih (k + 1) st (c2.trans he) (by rw [b3]; exact ht) hge hlt hq1
      rw [r1, r2, r3, r4, r5, r6, hit, b1, b2, b3, b4, c1]
      simp only [indices, List.map_cons, List.append_assoc, List.singleton_append, true_and]
      rcases hl : o.loop with _ | _
      · have e : (fuel < argv.length - (s.optind + 1)) ↔ (fuel + 1 < argv.length - s.optind) := by
          omega
        simp [advance, e]
      · simp
    · have hit := iterations_last argv.length o.loop fuel s.optind hhi hc
      have hl : o.loop = false := by
        cases h : o.loop
        · rfl
        · exact absurd (Or.inl h) hc
      have hfin : argv.length ≤ s.optind + 1 := Nat.le_of_not_lt (fun h => hc (Or.inr h))
      have hnot : ¬ (st.enable = true ∧ st.optind < argv.length) := by
        rw [b1, advance, hl]
        simp
        intro _
        exact hfin
      rw [if_neg hnot, hit]
      simp [indices, b2, b4, c1, c2, he, b3, hl]
      rw [if_neg (by omega)]
theorem LoopInv.next (argv : List String) (filesOffset : Nat) (o : Options)
    (e : SessionEnv) (k : Nat) (s : State) (h : LoopInv argv filesOffset k s)
    (hlt : (loopBody argv filesOffset o e s).state.optind < argv.length) :
    LoopInv argv filesOffset (k + 1) (loopBody argv filesOffset o e s).state := by
  obtain ⟨h1, h2, h3, h4⟩ := h
  obtain ⟨b1, b2, b3, -⟩ := loopBody_state argv filesOffset o e s h4
  refine ⟨?_, ?_, ?_, hlt⟩
  · rw [b2]; simp [h1]
  · rw [b3]; exact h2
  · rw [b1]; exact advance_ge _ _ _ _ h3

/-- Induction over the iterations of the playlist loop. -/
theorem playlistLoop_induct (argv : List String) (filesOffset : Nat) (o : Options)
    (env : Nat → SessionEnv) (motive : Nat → State → State × LoopStatus → Prop)
    (hzero : ∀ k s, LoopInv argv filesOffset k s → motive k s (s, LoopStatus.running))
    (hthrow : ∀ k s what, LoopInv argv filesOffset k s → throws (env k) = some what →
      motive k s ((loopBody argv filesOffset o (env k) s).state, LoopStatus.threw what))
    (hlast : ∀ k s, LoopInv argv filesOffset k s → throws (env k) = none →
      ¬ ((loopBody argv filesOffset o (env k) s).state.enable = true ∧
          (loopBody argv filesOffset o (env k) s).state.optind < argv.length) →
      motive k s ((loopBody argv filesOffset o (env k) s).state, LoopStatus.finished))
    (hstep : ∀ k s r, LoopInv argv filesOffset k s → throws (env k) = none →
      (loopBody argv filesOffset o (env k) s).state.enable = true →
      LoopInv argv filesOffset (k + 1) (loopBody argv filesOffset o (env k) s).state →
      motive (k + 1) (loopBody argv filesOffset o (env k) s).state r → motive k s r) :
    ∀ (fuel k : Nat) (s : State), LoopInv argv filesOffset k s →
      motive k s (playlistLoop argv filesOffset o env fuel k s) := by
  intro fuel
  induction fuel with
  | zero =>
    intro k s h
    exact hzero k s h
  | succ fuel ih =>
    intro k s h
    rw [playlistLoop_succ argv filesOffset o env fuel k s h.2.2.2]
    rcases hth : throws (env k) with _ | what
    · simp only
      by_cases hc : (loopBody argv filesOffset o (env k) s).state.enable = true ∧
          (loopBody argv filesOffset o (env k) s).state.optind < argv.length
      · rw [if_pos hc]
        have hn := LoopInv.next argv filesOffset o (env k) k s h hc.2
        exact hstep k s _ h hth hc.1 hn (ih (k + 1) _ hn)
      · rw [if_neg hc]
        exact hlast k s h hth hc
    · exact hthrow k s what h hth

/-- Every index at which the loop reads `argv` is the index of a file
argument, and the loop never reads past the end of `argv`. -/
theorem playlistLoop_reads (argv : List String) (filesOffset : Nat) (o : Options)
    (env : Nat → SessionEnv) (fuel k : Nat) (s : State)
    (h : LoopInv argv filesOffset k s)
    (hs : ∀ i ∈ s.reads, filesOffset ≤ i ∧ i < argv.length) :
    (∀ i ∈ (playlistLoop argv filesOffset o env fuel k s).1.reads,
        filesOffset ≤ i ∧ i < argv.length) ∧
      (playlistLoop argv filesOffset o env fuel k s).2 ≠ LoopStatus.fault := by
  have body : ∀ k s, LoopInv argv filesOffset k s →
      (∀ i ∈ s.reads, filesOffset ≤ i ∧ i < argv.length) →
      ∀ i ∈ (loopBody argv filesOffset o (env k) s).state.reads,
        filesOffset ≤ i ∧ i < argv.length := by
    intro k s h hs i hi
    rw [(loopBody_state argv filesOffset o (env k) s h.2.2.2).2.1] at hi
    rcases List.mem_append.mp hi with hi | hi
    · exact hs i hi
    · rw [List.mem_singleton.mp hi]
      exact ⟨h.2.2.1, h.2.2.2⟩
  refine playlistLoop_induct argv filesOffset o env
    (fun k s r => (∀ i ∈ s.reads, filesOffset ≤ i ∧ i < argv.length) →
      (∀ i ∈ r.1.reads, filesOffset ≤ i ∧ i < argv.length) ∧ r.2 ≠ LoopStatus.fault)
    ?_ ?_ ?_ ?_ fuel k s h hs
  · intro k s _ hs
    exact ⟨hs, by simp⟩
  · intro k s what h _ hs
    exact ⟨body k s h hs, by simp⟩
  · intro k s h _ _ hs
    exact ⟨body k s h hs, by simp⟩
  · intro k s r h _ _ _ ih hs
    exact ih (body k s h hs)

theorem loopBody_reads_length (argv : List String) (filesOffset : Nat) (o : Options)
    (e : SessionEnv) (k : Nat) (s : State) (h : LoopInv argv filesOffset k s) :
    (loopBody argv filesOffset o e s).state.reads.length = k + 1 := by
  rw [(loopBody_state argv filesOffset o e s h.2.2.2).2.1]
  simp [h.1]

/-- An iteration that throws is the last one, and the loop ends by an
exception exactly when the last iteration run throws. -/
theorem playlistLoop_throws (argv : List String) (filesOffset : Nat) (o : Options)
    (env : Nat → SessionEnv) (fuel k : Nat) (s : State)
    (h : LoopInv argv filesOffset k s) :
    (∀ what, (playlistLoop argv filesOffset o env fuel k s).2 = LoopStatus.threw what →
      ∃ j, j < (playlistLoop argv filesOffset o env fuel k s).1.reads.length ∧
        throws (env j) = some what) ∧
    (∀ j what, k ≤ j → j < (playlistLoop argv filesOffset o env fuel k s).1.reads.length →
      throws (env j) = some what →
      (playlistLoop argv filesOffset o env fuel k s).2 = LoopStatus.threw what) ∧
    (∀ j what, k ≤ j → throws (env j) = some what →
      (playlistLoop argv filesOffset o env fuel k s).1.reads.length ≤ j + 1) := by
  refine playlistLoop_induct argv filesOffset o env
    (fun k _ r =>
      (∀ what, r.2 = LoopStatus.threw what →
        ∃ j, j < r.1.reads.length ∧ throws (env j) = some what) ∧
      (∀ j what, k ≤ j → j < r.1.reads.length → throws (env j) = some what →
        r.2 = LoopStatus.threw what) ∧
      (∀ j what, k ≤ j → throws (env j) = some what → r.1.reads.length ≤ j + 1))
    ?_ ?_ ?_ ?_ fuel k s h
  · intro k s h
    refine ⟨by simp, ?_, ?_⟩
    · intro j what hk hj
      have := h.1
      simp only at hj
      omega
    · intro j what hk _
      have := h.1
      simp only
      omega
  · intro k s what h hth
    have hl := loopBody_reads_length argv filesOffset o (env k) k s h
    refine ⟨?_, ?_, ?_⟩
    · intro w hw
      simp only [LoopStatus.threw.injEq] at hw
      exact ⟨k, by simp only [hl]; omega, by rw [hth, hw]⟩
    · intro j w hk hj hw
      simp only [hl] at hj
      have : j = k := by omega
      subst this
      rw [hth] at hw
      simp only [Option.some.injEq] at hw
      simp [hw]
    · intro j w hk _
      simp only [hl]
      omega
  · intro k s h hth _
    have hl := loopBody_reads_length argv filesOffset o (env k) k s h
    refine ⟨by simp, ?_, ?_⟩
    · intro j w hk hj hw
      simp only [hl] at hj
      have : j = k := by omega
      subst this
      rw [hth] at hw
      simp at hw
    · intro j w hk _
      simp only [hl]
      omega
  · intro k s r h hth _ _ ih
    obtain ⟨i1, i2, i3⟩ := ih
    refine ⟨i1, ?_, ?_⟩
    · intro j w hk hj hw
      have : j ≠ k := by
        intro e
        subst e
        rw [hth] at hw
        simp at hw
      exact i2 j w (by omega) hj hw
    · intro j w hk hw
      have : j ≠ k := by
        intro e
        subst e
        rw [hth] at hw
        simp at hw
      exact i3 j w (by omega) hw

/-- At most one call of `Transmit` per iteration, each with the parsed
frequency, bandwidth and DMA channel. -/
theorem playlistLoop_calls (argv : List String) (filesOffset : Nat) (o : Options)
    (env : Nat → SessionEnv) (fuel k : Nat) (s : State)
    (h : LoopInv argv filesOffset k s) :
    (s.calls.length ≤ s.reads.length →
      (playlistLoop argv filesOffset o env fuel k s).1.calls.length
        ≤ (playlistLoop argv filesOffset o env fuel k s).1.reads.length) ∧
    (∀ c ∈ (playlistLoop argv filesOffset o env fuel k s).1.calls, c ∈ s.calls ∨
      (c.frequency = o.frequency ∧ c.bandwidth = o.bandwidth ∧
        c.dmaChannel = o.dmaChannel)) := by
  have body : ∀ k s, LoopInv argv filesOffset k s →
      (s.calls.length ≤ s.reads.length →
        (loopBody argv filesOffset o (env k) s).state.calls.length
          ≤ (loopBody argv filesOffset o (env k) s).state.reads.length) ∧
      (∀ c ∈ (loopBody argv filesOffset o (env k) s).state.calls, c ∈ s.calls ∨
        (c.frequency = o.frequency ∧ c.bandwidth = o.bandwidth ∧
          c.dmaChannel = o.dmaChannel)) := by
    intro k s h
    obtain ⟨-, b2, -, b4⟩ := loopBody_state argv filesOffset o (env k) s h.2.2.2
    rw [b2, b4]
    rcases (env k).openResult with what | r
    · simp only [List.append_nil, List.length_append, List.length_singleton]
      exact ⟨fun hle => by omega, fun c hc => Or.inl hc⟩
    · simp only [List.length_append, List.length_singleton, List.mem_append,
        List.mem_singleton]
      refine ⟨fun hle => by omega, ?_⟩
      intro c hc
      rcases hc with hc | hc
      · exact Or.inl hc
      · right
        subst hc
        simp [callAt]
  refine playlistLoop_induct argv filesOffset o env
    (fun _ s r =>
      (s.calls.length ≤ s.reads.length → r.1.calls.length ≤ r.1.reads.length) ∧
      (∀ c ∈ r.1.calls, c ∈ s.calls ∨
        (c.frequency = o.frequency ∧ c.bandwidth = o.bandwidth ∧
          c.dmaChannel = o.dmaChannel)))
    ?_ ?_ ?_ ?_ fuel k s h
  · intro k s _
    exact ⟨fun h => h, fun c hc => Or.inl hc⟩
  · intro k s what h _
    exact body k s h
  · intro k s h _ _
    exact body k s h
  · intro k s r h _ _ _ ih
    obtain ⟨b1, b2⟩ := body k s h
    refine ⟨fun hle => ih.1 (b1 hle), ?_⟩
    intro c hc
    rcases ih.2 c hc with hc | hc
    · exact b2 c hc
    · exact Or.inr hc

/-- An iteration in which a signal is delivered is the last one: it leaves
`enable` false, has called `Stop()` and printed the signal, and the loop is
over when it returns. -/
theorem playlistLoop_signal (argv : List String) (filesOffset : Nat) (o : Options)
    (env : Nat → SessionEnv) (fuel k : Nat) (s : State)
    (h : LoopInv argv filesOffset k s) :
    (∀ j, k ≤ j → delivered (env j) ≠ [] →
      (playlistLoop argv filesOffset o env fuel k s).1.reads.length ≤ j + 1) ∧
    (∀ j sig, k ≤ j → j < (playlistLoop argv filesOffset o env fuel k s).1.reads.length →
      sig ∈ delivered (env j) →
      (playlistLoop argv filesOffset o env fuel k s).1.enable = false ∧
      s.stops + (delivered (env j)).length
        ≤ (playlistLoop argv filesOffset o env fuel k s).1.stops ∧
      Line.signalReceived sig ∈ (playlistLoop argv filesOffset o env fuel k s).1.out ∧
      (playlistLoop argv filesOffset o env fuel k s).2 ≠ LoopStatus.running) := by
  refine playlistLoop_induct argv filesOffset o env
    (fun k s r =>
      (∀ j, k ≤ j → delivered (env j) ≠ [] → r.1.reads.length ≤ j + 1) ∧
      (∀ j sig, k ≤ j → j < r.1.reads.length → sig ∈ delivered (env j) →
        r.1.enable = false ∧ s.stops + (delivered (env j)).length ≤ r.1.stops ∧
        Line.signalReceived sig ∈ r.1.out ∧ r.2 ≠ LoopStatus.running))
    ?_ ?_ ?_ ?_ fuel k s h
  · intro k s h
    have := h.1
    refine ⟨?_, ?_⟩
    · intro j hk _
      simp only
      omega
    · intro j sig hk hj
      simp only at hj
      omega
  · intro k s what h hth
    have hl := loopBody_reads_length argv filesOffset o (env k) k s h
    obtain ⟨c1, c2, c3⟩ := loopBody_signals argv filesOffset o (env k) s h.2.2.2 h.2.1
    refine ⟨?_, ?_⟩
    · intro j hk _
      simp only [hl]
      omega
    · intro j sig hk hj hsig
      simp only [hl] at hj
      have : j = k := by omega
      subst this
      refine ⟨?_, ?_, c3 sig hsig, by simp⟩
      · simp only
        rw [c2]
        have : (delivered (env j)).isEmpty = false := by
          cases hd : delivered (env j) with
          | nil => rw [hd] at hsig; simp at hsig
          | cons a l => rfl
        simp [this]
      · simp only
        omega
  · intro k s h hth _
    have hl := loopBody_reads_length argv filesOffset o (env k) k s h
    obtain ⟨c1, c2, c3⟩ := loopBody_signals argv filesOffset o (env k) s h.2.2.2 h.2.1
    refine ⟨?_, ?_⟩
    · intro j hk _
      simp only [hl]
      omega
    · intro j sig hk hj hsig
      simp only [hl] at hj
      have : j = k := by omega
      subst this
      refine ⟨?_, ?_, c3 sig hsig, by simp⟩
      · simp only
        rw [c2]
        have : (delivered (env j)).isEmpty = false := by
          cases hd : delivered (env j) with
          | nil => rw [hd] at hsig; simp at hsig
          | cons a l => rfl
        simp [this]
      · simp only
        omega
  · intro k s r h hth hen hinv ih
    obtain ⟨c1, c2, c3⟩ := loopBody_signals argv filesOffset o (env k) s h.2.2.2 h.2.1
    have hempty : delivered (env k) = [] := by
      rw [c2] at hen
      cases hd : delivered (env k) with
      | nil => rfl
      | cons a l => rw [hd] at hen; simp at hen
    obtain ⟨i1, i2⟩ := ih
    refine ⟨?_, ?_⟩
    · intro j hk hne
      have : j ≠ k := by
        intro e
        subst e
        exact hne hempty
      exact i1 j (by omega) hne
    · intro j sig hk hj hsig
      have : j ≠ k := by
        intro e
        subst e
        rw [hempty] at hsig
        simp at hsig
      obtain ⟨r1, r2, r3, r4⟩ := i2 j sig (by omega) hj hsig
      refine ⟨r1, ?_, r3, r4⟩
      omega

theorem indices_length (argc filesOffset : Nat) (loop : Bool) :
    ∀ (j i : Nat), (indices argc filesOffset loop j i).length = j := by
  intro j
  induction j with
  | zero => intro i; rfl
  | succ j ih => intro i; simp [indices, ih]

theorem indices_once (argc filesOffset : Nat) :
    ∀ (j i m : Nat), m < j → (indices argc filesOffset false j i)[m]? = some (i + m) := by
  intro j
  induction j with
  | zero => intro i m h; omega
  | succ j ih =>
    intro i m h
    cases m with
    | zero => simp [indices]
    | succ m =>
      simp only [indices, List.getElem?_cons_succ]
      rw [ih _ m (by omega)]
      simp [advance]
      omega

theorem indices_repeat (argc filesOffset : Nat) (hoff : filesOffset < argc) :
    ∀ (j i m : Nat), m < j → filesOffset ≤ i → i < argc →
      (indices argc filesOffset true j i)[m]?
        = some (filesOffset + (i - filesOffset + m) % (argc - filesOffset)) := by
  intro j
  induction j with
  | zero => intro i m h; omega
  | succ j ih =>
    intro i m h hlo hhi
    cases m with
    | zero =>
      simp only [indices, List.getElem?_cons_zero, Nat.add_zero, Option.some.injEq]
      rw [Nat.mod_eq_of_lt (by omega)]
      omega
    | succ m =>
      simp only [indices, List.getElem?_cons_succ]
      rw [ih _ m (by omega) (advance_ge _ _ _ _ hlo)
        (advance_lt _ _ _ _ hoff hhi (Or.inl rfl))]
      simp only [advance, and_true, Option.some.injEq, Nat.add_left_cancel_iff]
      split
      · rename_i he
        have e : i - filesOffset + (m + 1) = m + (argc - filesOffset) := by omega
        rw [e, Nat.add_mod_right]
        simp
      · congr 1
        omega

theorem indices_filenames (argv : List String) (filesOffset : Nat) :
    ∀ (j i : Nat), j = argv.length - i →
      (indices argv.length filesOffset false j i).map (fun m => argv.getD m "")
        = argv.drop i := by
  intro j
  induction j with
  | zero =>
    intro i h
    simp only [indices, List.map_nil]
    rw [List.drop_eq_nil_of_le (by omega)]
  | succ j ih =>
    intro i h
    have hi : i < argv.length := by omega
    simp only [indices, List.map_cons]
    rw [List.drop_eq_getElem_cons hi]
    congr 1
    · simp [List.getD, hi]
    · have : advance argv.length filesOffset false i = i + 1 := by simp [advance]
      rw [this]
      exact ih (i + 1) (by omega)

/-! ## main: lemmas -/

theorem loopEntry_inv (inp : Input) (o : Options) (out : List Line)
    (hfiles : inp.optind < inp.argv.length) :
    LoopInv inp.argv inp.optind 0 (loopEntry inp o out) := by
  simp [LoopInv, loopEntry, State.initial, hfiles]

theorem mainBody_loop (fuel : Nat) (inp : Input) (o : Options) (out : List Line)
    (hfiles : inp.optind < inp.argv.length) (hcreate : inp.createResult = none) :
    mainBody fuel inp o out =
      match playlistLoop inp.argv inp.optind o inp.sessions fuel 0 (loopEntry inp o out) with
      | (s3, .running) => (s3, .running)
      | (s3, .fault) => (s3, .fault)
      | (s3, .threw what) => finish s3 (some what)
      | (s3, .finished) => finish s3 none := by
  unfold mainBody
  rw [if_pos hfiles]
  simp only [hcreate]
  rw [deliver_null inp.sigEarly (State.initial inp.optind out) rfl]
  rfl

theorem mainBody_fields (fuel : Nat) (inp : Input) (o : Options) (out : List Line)
    (hfiles : inp.optind < inp.argv.length) (hcreate : inp.createResult = none) :
    (mainBody fuel inp o out).2 = outcomeOf
      (playlistLoop inp.argv inp.optind o inp.sessions fuel 0 (loopEntry inp o out)).2 ∧
    (mainBody fuel inp o out).1.reads =
      (playlistLoop inp.argv inp.optind o inp.sessions fuel 0 (loopEntry inp o out)).1.reads ∧
    (mainBody fuel inp o out).1.calls =
      (playlistLoop inp.argv inp.optind o inp.sessions fuel 0 (loopEntry inp o out)).1.calls ∧
    (mainBody fuel inp o out).1.enable =
      (playlistLoop inp.argv inp.optind o inp.sessions fuel 0 (loopEntry inp o out)).1.enable ∧
    (mainBody fuel inp o out).1.stops =
      (playlistLoop inp.argv inp.optind o inp.sessions fuel 0 (loopEntry inp o out)).1.stops ∧
    (∀ l ∈ (playlistLoop inp.argv inp.optind o inp.sessions fuel 0
        (loopEntry inp o out)).1.out, l ∈ (mainBody fuel inp o out).1.out) ∧
    (∀ what, (playlistLoop inp.argv inp.optind o inp.sessions fuel 0
        (loopEntry inp o out)).2 = LoopStatus.threw what →
      Line.error what ∈ (mainBody fuel inp o out).1.out) := by
  rw [mainBody_loop fuel inp o out hfiles hcreate]
  rcases playlistLoop inp.argv inp.optind o inp.sessions fuel 0 (loopEntry inp o out)
    with ⟨s3, st⟩
  cases st <;> simp [finish, outcomeOf]
  tauto

theorem mainBody_create (fuel : Nat) (inp : Input) (o : Options) (out : List Line)
    (what : String)
    (hfiles : inp.optind < inp.argv.length) (hcreate : inp.createResult = some what) :
    (mainBody fuel inp o out).2 = Outcome.exited EXIT_FAILURE ∧
    (mainBody fuel inp o out).1.reads = [] ∧
    (mainBody fuel inp o out).1.calls = [] ∧
    Line.error what ∈ (mainBody fuel inp o out).1.out := by
  unfold mainBody
  rw [if_pos hfiles]
  simp only [hcreate]
  rw [deliver_null inp.sigEarly (State.initial inp.optind out) rfl]
  simp [finish, State.initial]

theorem main_proceed (fuel : Nat) (inp : Input) (o : Options) (out : List Line)
    (hparse : parseOptions inp.opts Options.initial [] = Parsed.proceed o out) :
    main fuel inp = mainBody fuel inp o out := by
  simp [main, hparse]

/-! ## The claims -/

/-- C10: on every iteration of the playlist loop of `main`, with loop enabled
or disabled and after any number of iterations, the index at which `argv` is
read satisfies `filesOffset <= index < argc` (`filesOffset` being the value of
`optind` after `getopt`), so the file name read is one of the file arguments
and `argv` is never read past its end. -/
theorem argv_index_in_bounds (fuel : Nat) (inp : Input) :
    (∀ i ∈ (main fuel inp).1.reads, inp.optind ≤ i ∧ i < inp.argv.length) ∧
      (main fuel inp).2 ≠ Outcome.fault := by
  unfold main
  rcases parseOptions inp.opts Options.initial [] with ⟨o, out⟩ | out | out
  · simp only
    by_cases hfiles : inp.optind < inp.argv.length
    · rcases hcreate : inp.createResult with _ | what
      · obtain ⟨f1, f2, -⟩ := mainBody_fields fuel inp o out hfiles hcreate
        obtain ⟨r1, r2⟩ := playlistLoop_reads inp.argv inp.optind o inp.sessions fuel 0
          (loopEntry inp o out) (loopEntry_inv inp o out hfiles)
          (by simp [loopEntry, State.initial])
        rw [f1, f2]
        refine ⟨r1, ?_⟩
        revert r2
        cases (playlistLoop inp.argv inp.optind o inp.sessions fuel 0
          (loopEntry inp o out)).2 <;> simp [outcomeOf]
      · obtain ⟨c1, c2, -⟩ := mainBody_create fuel inp o out what hfiles hcreate
        rw [c1, c2]
        simp
    · simp [mainBody, hfiles, State.initial]
  · simp [State.initial]
  · simp [State.initial]

theorem parseOptions_keeps :
    ∀ (opts : List Opt) (o0 : Options) (out0 : List Line) (o : Options) (out : List Line),
      parseOptions opts o0 out0 = Parsed.proceed o out →
      ((∀ x, Opt.f x ∉ opts) → o.frequency = o0.frequency) ∧
      ((∀ x, Opt.b x ∉ opts) → o.bandwidth = o0.bandwidth) ∧
      ((∀ x, Opt.d x ∉ opts) → o.dmaChannel = o0.dmaChannel) ∧
      (Opt.r ∉ opts → o.loop = o0.loop) := by
  intro opts
  induction opts with
  | nil =>
    intro o0 out0 o out h
    simp only [parseOptions, Parsed.proceed.injEq] at h
    simp [h.1]
  | cons a rest ih =>
    intro o0 out0 o out h
    rcases a with _ | (_ | x) | (_ | x) | (_ | x) | _ | _ <;>
      simp only [parseOptions] at h
    all_goals first
      | exact absurd h (by simp)
      | (obtain ⟨h1, h2, h3, h4⟩ := ih _ _ _ _ h
         refine ⟨?_, ?_, ?_, ?_⟩ <;> intro hx <;>
           simp only [List.mem_cons, not_or] at hx <;>
           first
             | exact h1 (fun x => (hx x).2)
             | exact h2 (fun x => (hx x).2)
             | exact h3 (fun x => (hx x).2)
             | exact h4 hx.2
             | exact absurd rfl (hx _).1
             | exact absurd rfl hx.1
             | exact absurd trivial hx.1)

/-- C6: when the option loop of `main` ends and `main` goes on, each of the
options -f, -b, -d, -r that the command line does not give leaves its own
default (carrier 100.0 MHz, bandwidth 200 kHz, DMA channel 0, loop disabled)
unchanged whatever the other options are, and these values are the ones
`main` uses and passes to every call of `Transmit`. -/
theorem defaults_kept (inp : Input) (o : Options) (out : List Line)
    (hparse : parseOptions inp.opts Options.initial [] = Parsed.proceed o out) :
    ((∀ x, Opt.f x ∉ inp.opts) → o.frequency = 100) ∧
    ((∀ x, Opt.b x ∉ inp.opts) → o.bandwidth = 200) ∧
    ((∀ x, Opt.d x ∉ inp.opts) → o.dmaChannel = 0) ∧
    (Opt.r ∉ inp.opts → o.loop = false) ∧
    (∀ fuel, main fuel inp = mainBody fuel inp o out) ∧
    (∀ fuel, ∀ c ∈ (main fuel inp).1.calls,
      c.frequency = o.frequency ∧ c.bandwidth = o.bandwidth ∧
        c.dmaChannel = o.dmaChannel) := by
  obtain ⟨h1, h2, h3, h4⟩ := parseOptions_keeps _ _ _ _ _ hparse
  refine ⟨h1, h2, h3, h4, fun fuel => main_proceed fuel inp o out hparse, ?_⟩
  intro fuel c hc
  rw [main_proceed fuel inp o out hparse] at hc
  by_cases hfiles : inp.optind < inp.argv.length
  · rcases hcreate : inp.createResult with _ | what
    · rw [(mainBody_fields fuel inp o out hfiles hcreate).2.2.1] at hc
      rcases (playlistLoop_calls inp.argv inp.optind o inp.sessions fuel 0
        (loopEntry inp o out) (loopEntry_inv inp o out hfiles)).2 c hc with h | h
      · simp [loopEntry, State.initial] at h
      · exact h
    · rw [(mainBody_create fuel inp o out what hfiles hcreate).2.2.1] at hc
      simp at hc
  · simp [mainBody, hfiles, State.initial] at hc

/-- C6 at a command line that gives only -f: bandwidth, DMA channel and loop
keep their defaults. -/
theorem defaults_kept_witness :
    parseOptions exampleFrequency.opts Options.initial []
        = Parsed.proceed { Options.initial with frequency := 90 } [Line.frequencySet 90] ∧
      ({ Options.initial with frequency := 90 } : Options).bandwidth = 200 ∧
      ({ Options.initial with frequency := 90 } : Options).dmaChannel = 0 ∧
      ({ Options.initial with frequency := 90 } : Options).loop = false :=
  ⟨rfl,
    (defaults_kept exampleFrequency _ _ rfl).2.1 (by simp [exampleFrequency]),
    (defaults_kept exampleFrequency _ _ rfl).2.2.1 (by simp [exampleFrequency]),
    (defaults_kept exampleFrequency _ _ rfl).2.2.2.1 (by simp [exampleFrequency])⟩

/-- The run of `main` while no signal arrives and nothing throws. -/
theorem main_quiet (inp : Input) (o : Options) (out : List Line)
    (hparse : parseOptions inp.opts Options.initial [] = Parsed.proceed o out)
    (hfiles : inp.optind < inp.argv.length) (hcreate : inp.createResult = none)
    (fuel : Nat)
    (hquiet : ∀ i, i < iterations inp.argv.length o.loop fuel inp.optind →
      Quiet (inp.sessions i)) :
    (main fuel inp).1.reads = indices inp.argv.length inp.optind o.loop
        (iterations inp.argv.length o.loop fuel inp.optind) inp.optind ∧
    (main fuel inp).1.calls = (indices inp.argv.length inp.optind o.loop
        (iterations inp.argv.length o.loop fuel inp.optind) inp.optind).map
          (callAt inp.argv inp.optind o) ∧
    (main fuel inp).1.stops = 0 ∧
    (main fuel inp).1.enable = true ∧
    (main fuel inp).2 = (if o.loop = true ∨ fuel < inp.argv.length - inp.optind
      then Outcome.running else Outcome.exited EXIT_SUCCESS) := by
  rw [main_proceed fuel inp o out hparse]
  obtain ⟨f1, f2, f3, f4, f5, -⟩ := mainBody_fields fuel inp o out hfiles hcreate
  obtain ⟨q1, q2, q3, q4, -, q6⟩ := playlistLoop_quiet inp.argv inp.optind o inp.sessions
    hfiles fuel 0 (loopEntry inp o out) rfl rfl (Nat.le_refl _) hfiles
    (by simpa [loopEntry, State.initial] using hquiet)
  rw [f1, f2, f3, f4, f5, q1, q2, q3, q4, q6]
  refine ⟨by simp [loopEntry, State.initial], by simp [loopEntry, State.initial], rfl, rfl, ?_⟩
  have e : (loopEntry inp o out).optind = inp.optind := rfl
  rw [e]
  by_cases h : o.loop = true ∨ fuel < inp.argv.length - inp.optind
  · rw [if_pos h, if_pos h]
    rfl
  · rw [if_neg h, if_neg h]
    rfl

/-- C1: with loop disabled and n >= 1 file arguments, if no signal arrives
during the sessions and nothing throws, the playlist loop of `main` runs
exactly n sessions, the i-th one on the i-th file argument in command-line
order, and then `main` returns (with EXIT_SUCCESS). -/
theorem playlist_once (inp : Input) (o : Options) (out : List Line)
    (hparse : parseOptions inp.opts Options.initial [] = Parsed.proceed o out)
    (hloop : o.loop = false)
    (hfiles : inp.optind < inp.argv.length) (hcreate : inp.createResult = none)
    (hquiet : ∀ k, k < inp.argv.length - inp.optind → Quiet (inp.sessions k))
    (fuel : Nat) (hfuel : inp.argv.length - inp.optind ≤ fuel) :
    (main fuel inp).2 = Outcome.exited EXIT_SUCCESS ∧
    (main fuel inp).1.calls.length = inp.argv.length - inp.optind ∧
    (main fuel inp).1.calls.map (fun c => c.filename) = inp.argv.drop inp.optind ∧
    (main fuel inp).1.reads
      = (List.range (inp.argv.length - inp.optind)).map (fun i => inp.optind + i) := by
  have hit : iterations inp.argv.length o.loop fuel inp.optind
      = inp.argv.length - inp.optind := by
    simp [iterations, hloop, hfuel]
  obtain ⟨m1, m2, -, -, m5⟩ := main_quiet inp o out hparse hfiles hcreate fuel
    (by rw [hit]; exact hquiet)
  rw [hit] at m1 m2
  refine ⟨?_, ?_, ?_, ?_⟩
  · rw [m5, if_neg]
    simp [hloop]
    omega
  · rw [m2]
    simp [indices_length]
  · rw [m2, List.map_map, hloop]
    exact indices_filenames inp.argv inp.optind _ inp.optind rfl
  · rw [m1, hloop]
    apply List.ext_getElem?
    intro m
    by_cases hm : m < inp.argv.length - inp.optind
    · rw [indices_once _ _ _ _ m hm]
      simp [List.getElem?_map, List.getElem?_range hm]
    · rw [List.getElem?_eq_none (by simp [indices_length]; omega),
        List.getElem?_eq_none (by simp; omega)]

/-- C1 on the run of `fm_transmitter a.wav b.wav`. -/
theorem playlist_once_witness :
    (main 2 exampleOnce).2 = Outcome.exited EXIT_SUCCESS ∧
    (main 2 exampleOnce).1.calls.length = 2 ∧
    (main 2 exampleOnce).1.calls.map (fun c => c.filename) = ["a.wav", "b.wav"] ∧
    (main 2 exampleOnce).1.reads = [1, 2] :=
  playlist_once exampleOnce Options.initial [] rfl rfl (by decide) rfl
    (fun _ _ => ⟨rfl, rfl⟩) 2 (by decide)

/-- C2: with loop enabled (-r) and n >= 1 file arguments, if no signal arrives
and nothing throws, then for every k the playlist loop of `main` reaches a
k-th session (counting from 0), that session is on file argument number
k mod n, and the loop never ends on its own (also when n = 1): `main` is still
in the loop after any number of iterations. -/
theorem playlist_repeats (inp : Input) (o : Options) (out : List Line)
    (hparse : parseOptions inp.opts Options.initial [] = Parsed.proceed o out)
    (hloop : o.loop = true)
    (hfiles : inp.optind < inp.argv.length) (hcreate : inp.createResult = none)
    (hquiet : ∀ k, Quiet (inp.sessions k)) (k : Nat) :
    (∀ fuel, (main fuel inp).2 = Outcome.running ∧ (main fuel inp).1.calls.length = fuel) ∧
    (∀ fuel, k < fuel → ∃ c, (main fuel inp).1.calls[k]? = some c ∧
      inp.argv[inp.optind + k % (inp.argv.length - inp.optind)]? = some c.filename) := by
  have hit : ∀ fuel, iterations inp.argv.length o.loop fuel inp.optind = fuel := by
    intro fuel
    simp [iterations, hloop]
  refine ⟨?_, ?_⟩
  · intro fuel
    obtain ⟨-, m2, -, -, m5⟩ := main_quiet inp o out hparse hfiles hcreate fuel
      (fun i _ => hquiet i)
    refine ⟨?_, ?_⟩
    · rw [m5, if_pos (Or.inl hloop)]
    · rw [m2, hit]
      simp [indices_length]
  · intro fuel hk
    obtain ⟨-, m2, -, -, -⟩ := main_quiet inp o out hparse hfiles hcreate fuel
      (fun i _ => hquiet i)
    have hlt : inp.optind + k % (inp.argv.length - inp.optind) < inp.argv.length := by
      have := Nat.mod_lt k (show 0 < inp.argv.length - inp.optind by omega)
      omega
    refine ⟨callAt inp.argv inp.optind o
      (inp.optind + k % (inp.argv.length - inp.optind)), ?_, ?_⟩
    · rw [m2, hit, List.getElem?_map, hloop,
        indices_repeat inp.argv.length inp.optind hfiles fuel inp.optind k hk
          (Nat.le_refl _) hfiles]
      simp
    · simp [callAt, List.getD, hlt]

/-- C2 on the run of `fm_transmitter -r a.wav b.wav`: session number 4 is on
`a.wav`. -/
theorem playlist_repeats_witness :
    (main 5 exampleRepeat).2 = Outcome.running ∧
    ∃ c, (main 5 exampleRepeat).1.calls[4]? = some c ∧
      exampleRepeat.argv[2]? = some c.filename :=
  ⟨((playlist_repeats exampleRepeat { Options.initial with loop := true } [] rfl rfl
      (by decide) rfl (fun _ => ⟨rfl, rfl⟩) 4).1 5).1,
    (playlist_repeats exampleRepeat { Options.initial with loop := true } [] rfl rfl
      (by decide) rfl (fun _ => ⟨rfl, rfl⟩) 4).2 5 (by decide)⟩

/-- C7: while no signal arrives and nothing throws, the `hasMore` argument of
a call of `Transmit` is true if and only if `main` starts another session
after that one: with loop disabled it is false exactly for the session of the
last file argument, with loop enabled it is true for every session. -/
theorem hasMore_iff_next (inp : Input) (o : Options) (out : List Line)
    (hparse : parseOptions inp.opts Options.initial [] = Parsed.proceed o out)
    (hfiles : inp.optind < inp.argv.length) (hcreate : inp.createResult = none)
    (hquiet : ∀ k, Quiet (inp.sessions k))
    (fuel k : Nat) (c : TransmitCall) (hc : (main fuel inp).1.calls[k]? = some c) :
    (c.hasMore = true ↔ ∃ fuel1, k + 1 < (main fuel1 inp).1.calls.length) ∧
    (o.loop = false → (c.hasMore = false ↔ k + 1 = inp.argv.length - inp.optind)) ∧
    (o.loop = true → c.hasMore = true) := by
  have hlen : ∀ fuel1, (main fuel1 inp).1.calls.length
      = iterations inp.argv.length o.loop fuel1 inp.optind := by
    intro fuel1
    rw [(main_quiet inp o out hparse hfiles hcreate fuel1 (fun i _ => hquiet i)).2.1]
    simp [indices_length]
  have hk : k < iterations inp.argv.length o.loop fuel inp.optind := by
    rw [← hlen]
    by_contra hge
    rw [List.getElem?_eq_none (by omega)] at hc
    simp at hc
  rw [(main_quiet inp o out hparse hfiles hcreate fuel (fun i _ => hquiet i)).2.1,
    List.getElem?_map] at hc
  rcases hl : o.loop with _ | _
  · rw [hl] at hc hk
    rw [indices_once _ _ _ _ k hk] at hc
    simp only [Option.map_some', Option.some.injEq] at hc
    have hkn : k < inp.argv.length - inp.optind := by
      simp [iterations] at hk
      omega
    have hm : c.hasMore = decide (inp.optind + k + 1 < inp.argv.length) := by
      rw [← hc]
      simp [callAt, advance, hl]
    refine ⟨?_, ?_, by simp⟩
    · rw [hm]
      simp only [decide_eq_true_eq]
      constructor
      · intro h
        refine ⟨inp.argv.length - inp.optind, ?_⟩
        rw [hlen, hl]
        simp [iterations]
        omega
      · rintro ⟨fuel1, h⟩
        rw [hlen, hl] at h
        simp [iterations] at h
        omega
    · intro _
      rw [hm]
      simp only [decide_eq_false_iff_not]
      omega
  · rw [hl] at hc hk
    rw [indices_repeat inp.argv.length inp.optind hfiles _ inp.optind k hk
      (Nat.le_refl _) hfiles] at hc
    simp only [Option.map_some', Option.some.injEq] at hc
    have hm : c.hasMore = true := by
      rw [← hc]
      simp only [callAt, decide_eq_true_eq]
      apply advance_lt _ _ _ _ hfiles _ (Or.inl hl)
      have := Nat.mod_lt (inp.optind - inp.optind + k)
        (show 0 < inp.argv.length - inp.optind by omega)
      omega
    refine ⟨?_, by simp, fun _ => hm⟩
    simp only [hm, true_iff]
    refine ⟨k + 2, ?_⟩
    rw [hlen, hl]
    simp [iterations]

/-- C7 on the run of `fm_transmitter a.wav b.wav`: the first call has
`hasMore` true and a session follows it. -/
theorem hasMore_iff_next_witness :
    (main 2 exampleOnce).1.calls[0]? = some (callAt exampleOnce.argv 1 Options.initial 1) ∧
    ((callAt exampleOnce.argv 1 Options.initial 1).hasMore = true ↔
      ∃ fuel1, 0 + 1 < (main fuel1 exampleOnce).1.calls.length) :=
  ⟨by decide,
    (hasMore_iff_next exampleOnce Options.initial [] rfl (by decide) rfl
      (fun _ => ⟨rfl, rfl⟩) 2 0 _ (by decide)).1⟩

/-- C3, as the claim states it, fails on the run of `fm_transmitter a.wav b.wav`
in which opening `a.wav` throws: `main` returns EXIT_FAILURE without any
session, so `b.wav` never gets one. -/
theorem error_skips_file_counterexample :
    throws (exampleBroken.sessions 0) = some "bad header" ∧
    exampleBroken.argv.drop exampleBroken.optind = ["a.wav", "b.wav"] ∧
    (main 5 exampleBroken).2 = Outcome.exited EXIT_FAILURE ∧
    (main 5 exampleBroken).1.reads = [1] ∧
    (main 5 exampleBroken).1.calls = [] := by
  decide

/-- C3 (amended): when the iteration number j of the playlist loop throws, at
the opening of the file or in `Transmit`, the whole playlist is aborted: no
iteration and no session comes after it, however long the run, and once that
iteration has run `main` has printed the error and returned EXIT_FAILURE. -/
theorem error_aborts_playlist (inp : Input) (o : Options) (out : List Line)
    (hparse : parseOptions inp.opts Options.initial [] = Parsed.proceed o out)
    (j : Nat) (what : String) (hthrow : throws (inp.sessions j) = some what) :
    (∀ fuel, (main fuel inp).1.reads.length ≤ j + 1 ∧
      (main fuel inp).1.calls.length ≤ j + 1) ∧
    (∀ fuel, j < (main fuel inp).1.reads.length →
      (main fuel inp).2 = Outcome.exited EXIT_FAILURE ∧
      Line.error what ∈ (main fuel inp).1.out) := by
  have key : ∀ fuel, ((main fuel inp).1.reads.length ≤ j + 1 ∧
      (main fuel inp).1.calls.length ≤ (main fuel inp).1.reads.length) ∧
      (j < (main fuel inp).1.reads.length →
        (main fuel inp).2 = Outcome.exited EXIT_FAILURE ∧
        Line.error what ∈ (main fuel inp).1.out) := by
    intro fuel
    rw [main_proceed fuel inp o out hparse]
    by_cases hfiles : inp.optind < inp.argv.length
    · rcases hcreate : inp.createResult with _ | w
      · obtain ⟨f1, f2, f3, -, -, -, f7⟩ := mainBody_fields fuel inp o out hfiles hcreate
        have hinv := loopEntry_inv inp o out hfiles
        obtain ⟨-, t2, t3⟩ := playlistLoop_throws inp.argv inp.optind o inp.sessions fuel 0
          (loopEntry inp o out) hinv
        have hcalls := (playlistLoop_calls inp.argv inp.optind o inp.sessions fuel 0
          (loopEntry inp o out) hinv).1 (by simp [loopEntry, State.initial])
        rw [f1, f2, f3]
        refine ⟨⟨t3 j what (Nat.zero_le _) hthrow, hcalls⟩, ?_⟩
        intro hj
        have hst := t2 j what (Nat.zero_le _) hj hthrow
        exact ⟨by rw [hst]; rfl, f7 what hst⟩
      · obtain ⟨c1, c2, c3, -⟩ := mainBody_create fuel inp o out w hfiles hcreate
        rw [c2, c3]
        simp
    · simp [mainBody, hfiles, State.initial]
  refine ⟨fun fuel => ⟨(key fuel).1.1, ?_⟩, fun fuel => (key fuel).2⟩
  have := (key fuel).1
  omega

/-- C3 (amended) on the run in which opening `a.wav` throws. -/
theorem error_aborts_playlist_witness :
    throws (exampleBroken.sessions 0) = some "bad header" ∧
    (∀ fuel, (main fuel exampleBroken).1.reads.length ≤ 1 ∧
      (main fuel exampleBroken).1.calls.length ≤ 1) ∧
    (main 1 exampleBroken).2 = Outcome.exited EXIT_FAILURE :=
  ⟨rfl,
    (error_aborts_playlist exampleBroken Options.initial [] rfl 0 "bad header" rfl).1,
    ((error_aborts_playlist exampleBroken Options.initial [] rfl 0 "bad header" rfl).2 1
      (by decide)).1⟩

/-- Signals delivered before the `Transmitter` is created change nothing. -/
theorem main_early_signals (fuel : Nat) (inp : Input) (sigs : List Int) :
    main fuel { inp with sigEarly := sigs } = main fuel inp := by
  have hbody : ∀ o out, mainBody fuel { inp with sigEarly := sigs } o out
      = mainBody fuel inp o out := by
    intro o out
    unfold mainBody
    simp only
    rw [deliver_null sigs (State.initial inp.optind out) rfl,
      deliver_null inp.sigEarly (State.initial inp.optind out) rfl]
  unfold main
  simp only [hbody]

/-- C5, as the claim states it, fails on the run of `fm_transmitter a.wav b.wav`
in which SIGINT is delivered after the handlers are installed and before the
`Transmitter` is created: the handler neither calls `Stop()` nor clears
`enable`, and both sessions are still started. -/
theorem signal_stops_counterexample :
    exampleEarlySignal.sigEarly = [2] ∧
    (main 5 exampleEarlySignal).2 = Outcome.exited EXIT_SUCCESS ∧
    (main 5 exampleEarlySignal).1.stops = 0 ∧
    (main 5 exampleEarlySignal).1.enable = true ∧
    (main 5 exampleEarlySignal).1.calls.length = 2 := by
  decide

/-- C5 (amended): a SIGINT or SIGTERM delivered while `transmitter` is not
null calls `Stop()` and clears `enable`; delivered during iteration j of the
playlist loop, it makes that iteration the last one (also with loop enabled
and files remaining): no further iteration and no further session is started,
and when the iteration has run `main` is out of the loop with `enable` false.
A signal delivered while `transmitter` is null, as between the installation of
the handlers and the creation of the `Transmitter`, changes nothing. -/
theorem signal_stops_playlist (inp : Input) (o : Options) (out : List Line)
    (hparse : parseOptions inp.opts Options.initial [] = Parsed.proceed o out)
    (j : Nat) (sig : Int) (hsig : sig ∈ delivered (inp.sessions j)) :
    (∀ s t, s.transmitter = some t →
      (sigIntHandler sig s).enable = false ∧ (sigIntHandler sig s).stops = s.stops + 1) ∧
    (∀ s, s.transmitter = none → sigIntHandler sig s = s) ∧
    (∀ fuel, (main fuel inp).1.reads.length ≤ j + 1 ∧
      (main fuel inp).1.calls.length ≤ j + 1) ∧
    (∀ fuel, j < (main fuel inp).1.reads.length →
      (main fuel inp).1.enable = false ∧
      (delivered (inp.sessions j)).length ≤ (main fuel inp).1.stops ∧
      Line.signalReceived sig ∈ (main fuel inp).1.out ∧
      ((main fuel inp).2 = Outcome.exited EXIT_SUCCESS ∨
        (main fuel inp).2 = Outcome.exited EXIT_FAILURE)) ∧
    (∀ fuel sigs, main fuel { inp with sigEarly := sigs } = main fuel inp) := by
  have hne : delivered (inp.sessions j) ≠ [] := by
    intro h
    rw [h] at hsig
    simp at hsig
  have key : ∀ fuel, ((main fuel inp).1.reads.length ≤ j + 1 ∧
      (main fuel inp).1.calls.length ≤ (main fuel inp).1.reads.length) ∧
      (j < (main fuel inp).1.reads.length →
        (main fuel inp).1.enable = false ∧
        (delivered (inp.sessions j)).length ≤ (main fuel inp).1.stops ∧
        Line.signalReceived sig ∈ (main fuel inp).1.out ∧
        ((main fuel inp).2 = Outcome.exited EXIT_SUCCESS ∨
          (main fuel inp).2 = Outcome.exited EXIT_FAILURE)) := by
    intro fuel
    rw [main_proceed fuel inp o out hparse]
    by_cases hfiles : inp.optind < inp.argv.length
    · rcases hcreate : inp.createResult with _ | w
      · obtain ⟨f1, f2, f3, f4, f5, f6, -⟩ := mainBody_fields fuel inp o out hfiles hcreate
        have hinv := loopEntry_inv inp o out hfiles
        obtain ⟨s1, s2⟩ := playlistLoop_signal inp.argv inp.optind o inp.sessions fuel 0
          (loopEntry inp o out) hinv
        obtain ⟨-, hnf⟩ := playlistLoop_reads inp.argv inp.optind o inp.sessions fuel 0
          (loopEntry inp o out) hinv (by simp [loopEntry, State.initial])
        have hcalls := (playlistLoop_calls inp.argv inp.optind o inp.sessions fuel 0
          (loopEntry inp o out) hinv).1 (by simp [loopEntry, State.initial])
        rw [f1, f2, f3, f4, f5]
        refine ⟨⟨s1 j (Nat.zero_le _) hne, hcalls⟩, ?_⟩
        intro hj
        obtain ⟨r1, r2, r3, r4⟩ := s2 j sig (Nat.zero_le _) hj hsig
        refine ⟨r1, by omega, f6 _ r3, ?_⟩
        revert r4 hnf
        cases (playlistLoop inp.argv inp.optind o inp.sessions fuel 0
          (loopEntry inp o out)).2 <;> simp [outcomeOf]
      · obtain ⟨c1, c2, c3, -⟩ := mainBody_create fuel inp o out w hfiles hcreate
        rw [c2, c3]
        simp
    · simp [mainBody, hfiles, State.initial]
  refine ⟨?_, ?_, fun fuel => ⟨(key fuel).1.1, ?_⟩, fun fuel => (key fuel).2, ?_⟩
  · intro s t ht
    simp [sigIntHandler, ht]
  · intro s hs
    simp [sigIntHandler, hs]
  · have := (key fuel).1
    omega
  · intro fuel sigs
    exact main_early_signals fuel inp sigs

/-- C5 (amended) on the run of `fm_transmitter -r a.wav b.wav` in which SIGINT
is delivered during the second session: that session is the last one. -/
theorem signal_stops_playlist_witness :
    (2 : Int) ∈ delivered (exampleSignal.sessions 1) ∧
    (∀ fuel, (main fuel exampleSignal).1.reads.length ≤ 2 ∧
      (main fuel exampleSignal).1.calls.length ≤ 2) ∧
    (main 5 exampleSignal).1.enable = false :=
  ⟨by decide,
    (signal_stops_playlist exampleSignal { Options.initial with loop := true } [] rfl 1 2
      (by decide)).2.2.1,
    ((signal_stops_playlist exampleSignal { Options.initial with loop := true } [] rfl 1 2
      (by decide)).2.2.2.1 5 (by decide)).1⟩

/-- C8: for every configured bandwidth B > 0 and every sample amplitude, also
one outside the normalized range, the deviation the modulation step produces
satisfies |deviation| <= B/2. -/
theorem deviation_bounded (bandwidthKHz amplitude : ℚ) (hB : 0 < bandwidthKHz) :
    |deviation bandwidthKHz amplitude| ≤ bandwidthKHz / 2 := by
  unfold deviation
  rw [abs_le]
  constructor
  · exact le_max_left _ _
  · exact max_le (by linarith) (min_le_right _ _)

/-- C8 at bandwidth 200 kHz and the amplitude 5, five times the full scale. -/
theorem deviation_bounded_witness :
    (0 : ℚ) < 200 ∧ |deviation 200 5| ≤ 200 / 2 :=
  ⟨by norm_num, deviation_bounded 200 5 (by norm_num)⟩

end FmTransmitter

namespace CpuTransmitter

/-- C9: a 1 bit is signalled by holding the CPU load for `DURATION_ONE`, and
the pause between repeats of the bitstream is `REPEAT_PAUSE`, which is 1.0
second in microseconds; but `DURATION_ONE` is 1.0 second in microseconds as
well, not the 0.3 seconds that the claim and the comment on its definition
state. -/
theorem duration_one_is_one_second :
    transmit_bit '1' = [Action.print '1', Action.load NUM_THREADS DURATION_ONE] ∧
    (List.getLast? (round BITSTREAM)) = some (Action.usleep REPEAT_PAUSE) ∧
    (REPEAT_PAUSE : ℚ) = microseconds 1 ∧
    (DURATION_ONE : ℚ) = microseconds 1 ∧
    (DURATION_ONE : ℚ) ≠ microseconds (3 / 10) := by
  refine ⟨by decide, by decide, ?_, ?_, ?_⟩ <;>
    norm_num [REPEAT_PAUSE, DURATION_ONE, microseconds]

end CpuTransmitter
